import Mathlib

/-!
# QuantLib: time grid, finite-difference gradient and the digital Monte Carlo engine

A shallow embedding of

* `ql/Lattices/timegrid.hpp` (`Lattices::TimeGrid`: constructor, `findIndex`, `dt`),
* `ql/Optimization/costfunction.hpp` (`CostFunction::gradient`),
* `ql/PricingEngines/Vanilla/mcdigitalengine.hpp` (`MCDigitalEngine::calculate`,
  `pathPricer`, `timeGrid`).

`Time`, `Real` and `double` are modelled by exact rationals `ℚ`; `Size` by `ℕ`. The
time grid constructor is also given with the result of every operation rounded
(`TimeGridFl`), which with `roundDouble` is the constructor in `double` arithmetic.
`back()` of an empty list and a write outside an array have no result (`none`); an
unchecked read outside a vector yields what lies in memory there, and the conversion
to `Size` of a value outside its range what the platform makes of it (parameters).
-/

set_option autoImplicit false

namespace QuantLib

namespace Lattices

/-! ## `Lattices::TimeGrid` -/

/-- The conversion `(Size)x` of a `double` to an unsigned integer: truncation, which
on the non-negative values is the floor. -/
def toSize (x : ℚ) : ℕ := ⌊x⌋₊

/-- The inner loop `for (Size n=0; n<nSteps; n++) push_back(begin + n*dt);`:
the values pushed, in order. -/
def segment (begin dt : ℚ) (nSteps : ℕ) : List ℚ :=
  (List.range nSteps).map (fun (n : ℕ) => begin + (n : ℚ) * dt)

/-- The outer loop of the constructor over the remaining mandatory points, as a
function of the state `(grid pushed so far, begin)`. -/
def loop (dtMax : ℚ) : List ℚ → List ℚ × ℚ → List ℚ × ℚ
  | [], st => st
  | e :: ts, (grid, begin) =>
    if begin = e then loop dtMax ts (grid, begin)
    else
      let nSteps := toSize ((e - begin) / dtMax + 1)
      let dt := (e - begin) / (nSteps : ℚ)
      loop dtMax ts (grid ++ segment begin dt nSteps, e)

/-- The constructor `TimeGrid(const std::list<Time>& times, Size steps)`.
`times.back()` of an empty list has no defined result. The constructor contains no
check of `steps`; the quotient `last/steps` is taken as it is (in `ℚ` a quotient by
zero is `0`, and with `steps = 0` every `nSteps` is `1`, which is also what the
IEEE quotient `+inf` of the C++ code gives for a positive `last`). -/
def TimeGrid (times : List ℚ) (steps : ℕ) : Option (List ℚ) :=
  match times.getLast? with
  | none => none
  | some last =>
    let dtMax := last / (steps : ℚ)
    let st := loop dtMax times ([], 0)
    some (st.1 ++ [st.2])

/-- The unchecked access `(*this)[j]` of `std::vector`: inside the vector, its element;
outside, no check is made and the read is undefined: it yields whatever lies in memory
there, `beyond j`. -/
def subscript (beyond : ℕ → ℚ) (grid : List ℚ) (j : ℕ) : ℚ :=
  grid.getD j (beyond j)

/-- The member `Time dt(Size i)`, `(*this)[i+1] - (*this)[i]`. The body has no bounds
check and no `throw`: for every `i` it returns a number. -/
def dt (beyond : ℕ → ℚ) (grid : List ℚ) (i : ℕ) : Except String ℚ :=
  Except.ok (subscript beyond grid (i + 1) - subscript beyond grid i)

/-- The grid as it stands when the final `push_back(begin)` is added to the state. -/
def closed (st : List ℚ × ℚ) : List ℚ := st.1 ++ [st.2]

/-- Two consecutive grid values: increasing, and no further apart than `dtMax`. -/
def Gap (dtMax a b : ℚ) : Prop := a < b ∧ b - a ≤ dtMax

/-! ### The constructor in rounded arithmetic -/

/-- A list of times with adjacent repeated values collapsed to one occurrence, as the
specification words the duplicate merge. -/
def collapse : List ℚ → List ℚ
  | [] => []
  | [a] => [a]
  | a :: b :: l => if a = b then collapse (b :: l) else a :: collapse (b :: l)

end Lattices

namespace Optimization

/-! ## `Optimization::CostFunction` -/

/-- The class `CostFunction`: the pure virtual `value` and the virtual
`finiteDifferenceEpsilon` (whose default implementation returns `1e-8`). Arrays are
lists of coordinates. -/
structure CostFunction where
  value : List ℚ → ℚ
  finiteDifferenceEpsilon : ℚ

/-- The default `finiteDifferenceEpsilon()`, `1e-8`. -/
def defaultEpsilon : ℚ := 1 / 100000000

/-- The body of the loop of `gradient` for the index `i`, on the state
`(xx, grad_f)`:
`xx[i] += eps; fp = value(xx); xx[i] -= 2.*eps; fm = value(xx);
grad_f[i] = 0.5*(fp - fm)/eps;`. -/
def gradientStep (f : CostFunction) (st : List ℚ × List ℚ) (i : ℕ) : List ℚ × List ℚ :=
  let eps := f.finiteDifferenceEpsilon
  let xx1 := st.1.set i (st.1.getD i 0 + eps)
  let fp := f.value xx1
  let xx2 := xx1.set i (xx1.getD i 0 - 2 * eps)
  let fm := f.value xx2
  (xx2, st.2.set i (1 / 2 * (fp - fm) / eps))

/-- The default `gradient(Array& grad_f, const Array& x)`: the content of `grad_f`
when it returns. `xx` starts as a copy of `x` and the loop runs over
`i = 0 .. x.size()-1`; a `grad_f` shorter than `x` is written outside its bounds,
which has no defined result. -/
def gradient (f : CostFunction) (grad_f x : List ℚ) : Option (List ℚ) :=
  if x.length ≤ grad_f.length then
    some ((List.range x.length).foldl (gradientStep f) (x, grad_f)).2
  else none

/-- The central finite difference of `value` at `x` in the coordinate `i`, as the
specification words it: `(value(x + eps*e_i) - value(x - eps*e_i)) / (2*eps)`, the
other coordinates being those of `x`. -/
def centralDifference (f : CostFunction) (x : List ℚ) (i : ℕ) : ℚ :=
  (f.value (x.set i (x.getD i 0 + f.finiteDifferenceEpsilon))
    - f.value (x.set i (x.getD i 0 - f.finiteDifferenceEpsilon)))
    / (2 * f.finiteDifferenceEpsilon)

/-- The cost function `value(x) = x[0] * x[1]` with the default epsilon. -/
def productCost : CostFunction where
  value := fun v => v.getD 0 0 * v.getD 1 0
  finiteDifferenceEpsilon := defaultEpsilon

/-- The content of the three arrays when the default `gradient` returns: the argument
`x` (a `const Array&`, which the function never writes), the working copy `xx` and
`grad_f`. -/
def gradientArrays (f : CostFunction) (grad_f x : List ℚ) :
    Option (List ℚ × List ℚ × List ℚ) :=
  if x.length ≤ grad_f.length then
    some (x, ((List.range x.length).foldl (gradientStep f) (x, grad_f)).1,
      ((List.range x.length).foldl (gradientStep f) (x, grad_f)).2)
  else none

/-- The scalar product `a.x` of two arrays of coordinates. -/
def dot (a v : List ℚ) : ℚ := (List.zipWith (fun p q => p * q) a v).sum

/-- The affine cost function `value(x) = a.x + c`, with `finiteDifferenceEpsilon()`
returning `eps`. -/
def affineCost (a : List ℚ) (c eps : ℚ) : CostFunction where
  value := fun v => dot a v + c
  finiteDifferenceEpsilon := eps

end Optimization

namespace MCDigitalEngine

/-! ## `MCDigitalEngine` -/

/-- The types of the classes the engine works with, which are declared in other
files: what `arguments_.payoff` and `arguments_.exercise` point to and their
subclasses, the process, the time grid, the path generator, the path pricer type of a
control variate, the pricing engine and the Monte Carlo model. -/
structure Sig where
  Payoff : Type
  CashOrNothingPayoff : Type
  Exercise : Type
  AmericanExercise : Type
  Process : Type
  Grid : Type
  PathGenerator : Type
  ControlPathPricer : Type
  PricingEngine : Type
  Model : Type

/-- The class `DigitalPathPricer`, by the arguments its constructor is given in
`pathPricer()`; `sequenceDimension` and `sequenceSeed` are the arguments of
`sequenceGen`. -/
structure DigitalPathPricer (σ : Sig) where
  payoff_ : σ.CashOrNothingPayoff
  exercise_ : σ.AmericanExercise
  underlying_ : ℚ
  diffProcess_ : σ.Process
  sequenceDimension : ℕ
  sequenceSeed : ℕ

/-- What the code of the engine uses and other files define. -/
structure Env (σ : Sig) where
  /-- The sentinel `Null<Real>()`. -/
  nullReal : ℚ
  /-- The sentinel `Null<Size>()`. -/
  nullSize : ℕ
  /-- The number of values of `Size`. -/
  sizeModulus : ℕ
  /-- What the conversion `Size(x)` yields on this platform for an `x` outside the
  range of `Size`, where the conversion is undefined. -/
  sizeOverflow : ℚ → ℕ
  /-- The constant `RNG::allowsErrorEstimate`. -/
  allowsErrorEstimate : Bool
  /-- The cast `boost::dynamic_pointer_cast<CashOrNothingPayoff>`; `none` is the null
  pointer. -/
  castCashOrNothing : σ.Payoff → Option σ.CashOrNothingPayoff
  /-- The cast `boost::dynamic_pointer_cast<AmericanExercise>`. -/
  castAmerican : σ.Exercise → Option σ.AmericanExercise
  /-- The year fraction from the reference date of the risk-free curve of the process
  to the last date of the exercise. -/
  yearFraction : σ.Process → σ.Exercise → ℚ
  /-- The constructor `TimeGrid(Time end, Size steps)`. -/
  makeGrid : ℚ → ℕ → σ.Grid
  /-- The member `size()` of a grid. -/
  gridSize : σ.Grid → ℕ
  /-- The value of `blackScholesProcess->stateVariable()->value()`. -/
  stateVariable : σ.Process → ℚ
  /-- The member `controlPathPricer()`; `none` is the null pointer. -/
  controlPathPricer : Option σ.ControlPathPricer
  /-- The member `controlPricingEngine()`; `none` is the null pointer. -/
  controlPricingEngine : Option σ.PricingEngine
  /-- The member `pathGenerator()`, which may throw. -/
  pathGenerator : Except String σ.PathGenerator
  /-- The constructor of `MonteCarloModel` on a path generator, a path pricer, the
  empty statistics `S()` and the antithetic flag; it may throw. -/
  newModel : σ.PathGenerator → DigitalPathPricer σ → Bool → Except String σ.Model
  /-- The sampling `value(tolerance, maxSamples)`, or `value(tolerance)` when no cap
  is passed, on the model `mcModel_` points to: the model after the sampling, or the
  exception thrown. -/
  value : σ.Model → ℚ → Option ℕ → Except String σ.Model
  /-- The sampling `valueWithSamples(samples)` on the model `mcModel_` points to. -/
  valueWithSamples : σ.Model → ℕ → Except String σ.Model
  /-- The mean `sampleAccumulator().mean()` of a model. -/
  mean : σ.Model → ℚ
  /-- The error estimate `sampleAccumulator().errorEstimate()` of a model. -/
  errorEstimate : σ.Model → ℚ

/-- The data members of the engine that `calculate` reads: the arguments of the
constructor and the `arguments_` of the instrument. -/
structure Engine (σ : Sig) where
  maxTimeStepsPerYear_ : ℕ
  antitheticVariate_ : Bool
  controlVariate_ : Bool
  requiredSamples_ : ℕ
  requiredTolerance_ : ℚ
  maxSamples_ : ℕ
  seed_ : ℕ
  payoff : σ.Payoff
  exercise : σ.Exercise
  blackScholesProcess : σ.Process

/-- The calls `calculate` makes on its collaborators, recorded in order. -/
inductive Call
  | controlPathPricer
  | controlPricingEngine
  | pathGenerator
  | pathPricer
  | newModel
  | value (tolerance : ℚ) (maxSamples : Option ℕ)
  | valueWithSamples (samples : ℕ)
  | mean
  | errorEstimate
  deriving DecidableEq, Repr

/-- The members `results_.value` and `results_.errorEstimate`. -/
structure Results where
  value : ℚ
  errorEstimate : ℚ
  deriving DecidableEq

/-- The mutable members of the engine, `mcModel_` (`none` is the null pointer) and
`results_`, with the record of the calls made so far. -/
structure State (σ : Sig) where
  mcModel_ : Option σ.Model
  results_ : Results
  calls : List Call

/-- The failures of `calculate`: a failed `QL_REQUIRE` of this file with its message,
an exception thrown by a collaborator, and the use of `mcModel_` while it is null. -/
inductive Error
  | require (msg : String)
  | external (msg : String)
  | nullModel
  deriving DecidableEq, Repr

/-- The state in which a run of `calculate` ends, and the failure it ended with, if
any. -/
structure Outcome (σ : Sig) where
  state : State σ
  error : Option Error

/-- Records calls. -/
def State.log {σ : Sig} (s : State σ) (cs : List Call) : State σ :=
  { s with calls := s.calls ++ cs }

/-- The conversion `Size(x)` of a `Real` to the fixed-width unsigned type `Size` with
`modulus` values: the truncation of `x` when that is a value of `Size`; otherwise the
conversion is undefined and yields what the platform makes of it, `outOfRange x`. -/
def sizeOfReal (modulus : ℕ) (outOfRange : ℚ → ℕ) (x : ℚ) : ℕ :=
  if -1 < x ∧ x < (modulus : ℚ) then ⌊x⌋₊ else outOfRange x

/-- The step count `Size(QL_MAX<Real>(t * maxTimeStepsPerYear_, 1.0))` that
`timeGrid()` passes to the grid constructor. -/
def timeGridSteps {σ : Sig} (env : Env σ) (t : ℚ) (maxTimeStepsPerYear : ℕ) : ℕ :=
  sizeOfReal env.sizeModulus env.sizeOverflow (max (t * (maxTimeStepsPerYear : ℚ)) 1)

/-- The member `timeGrid()`. -/
def timeGrid {σ : Sig} (env : Env σ) (eng : Engine σ) : σ.Grid :=
  let t := env.yearFraction eng.blackScholesProcess eng.exercise
  env.makeGrid t (timeGridSteps env t eng.maxTimeStepsPerYear_)

/-- The member `pathPricer()`. -/
def pathPricer {σ : Sig} (env : Env σ) (eng : Engine σ) : Except Error (DigitalPathPricer σ) :=
  match env.castCashOrNothing eng.payoff with
  | none => Except.error (Error.require "wrong payoff given")
  | some payoff =>
    match env.castAmerican eng.exercise with
    | none => Except.error (Error.require "wrong exercise given")
    | some exercise =>
      let grid := timeGrid env eng
      Except.ok
        { payoff_ := payoff
          exercise_ := exercise
          underlying_ := env.stateVariable eng.blackScholesProcess
          diffProcess_ := eng.blackScholesProcess
          sequenceDimension := (env.gridSize grid + env.sizeModulus - 1) % env.sizeModulus
          sequenceSeed := 76 }

/-- The block "Initialize the one-factor Monte Carlo" of `calculate`. In the branch
without control variate the arguments of the model constructor are evaluated in the
order `pathGenerator()`, `pathPricer()`. -/
def initModel {σ : Sig} (env : Env σ) (eng : Engine σ) (s : State σ) : Outcome σ :=
  if eng.controlVariate_ then
    match env.controlPathPricer with
    | none =>
      ⟨s.log [Call.controlPathPricer],
        some (Error.require "engine does not provide control variation path pricer")⟩
    | some _ =>
      match env.controlPricingEngine with
      | none =>
        ⟨s.log [Call.controlPathPricer, Call.controlPricingEngine],
          some (Error.require "engine does not provide control variation pricing engine")⟩
      | some _ => ⟨s.log [Call.controlPathPricer, Call.controlPricingEngine], none⟩
  else
    match env.pathGenerator with
    | Except.error m => ⟨s.log [Call.pathGenerator], some (Error.external m)⟩
    | Except.ok pg =>
      match pathPricer env eng with
      | Except.error err => ⟨s.log [Call.pathGenerator, Call.pathPricer], some err⟩
      | Except.ok pp =>
        match env.newModel pg pp eng.antitheticVariate_ with
        | Except.error m =>
          ⟨s.log [Call.pathGenerator, Call.pathPricer, Call.newModel],
            some (Error.external m)⟩
        | Except.ok model =>
          ⟨{ s.log [Call.pathGenerator, Call.pathPricer, Call.newModel] with
              mcModel_ := some model }, none⟩

/-- One sampling call on the model `mcModel_` points to. -/
def sampleWith {σ : Sig} (s : State σ) (c : Call)
    (run : σ.Model → Except String σ.Model) : Outcome σ :=
  match s.mcModel_ with
  | none => ⟨s.log [c], some Error.nullModel⟩
  | some m =>
    match run m with
    | Except.error msg => ⟨s.log [c], some (Error.external msg)⟩
    | Except.ok m1 => ⟨{ s.log [c] with mcModel_ := some m1 }, none⟩

/-- The sampling block of `calculate`. -/
def runSampling {σ : Sig} (env : Env σ) (eng : Engine σ) (s : State σ) : Outcome σ :=
  if eng.requiredTolerance_ ≠ env.nullReal then
    if eng.maxSamples_ ≠ env.nullSize then
      sampleWith s (Call.value eng.requiredTolerance_ (some eng.maxSamples_))
        (fun m => env.value m eng.requiredTolerance_ (some eng.maxSamples_))
    else
      sampleWith s (Call.value eng.requiredTolerance_ none)
        (fun m => env.value m eng.requiredTolerance_ none)
  else
    sampleWith s (Call.valueWithSamples eng.requiredSamples_)
      (fun m => env.valueWithSamples m eng.requiredSamples_)

/-- The last statements of `calculate`, which write `results_`. -/
def writeResults {σ : Sig} (env : Env σ) (s : State σ) : Outcome σ :=
  match s.mcModel_ with
  | none => ⟨s, some Error.nullModel⟩
  | some m =>
    let s1 : State σ :=
      { s.log [Call.mean] with results_ := { s.results_ with value := env.mean m } }
    if env.allowsErrorEstimate then
      ⟨{ s1.log [Call.errorEstimate] with
          results_ := { s1.results_ with errorEstimate := env.errorEstimate m } }, none⟩
    else ⟨s1, none⟩

/-- The member `calculate()`. -/
def calculate {σ : Sig} (env : Env σ) (eng : Engine σ) (s : State σ) : Outcome σ :=
  if eng.requiredTolerance_ ≠ env.nullReal ∨ eng.requiredSamples_ ≠ env.nullSize then
    match initModel env eng s with
    | ⟨s1, some err⟩ => ⟨s1, some err⟩
    | ⟨s1, none⟩ =>
      match runSampling env eng s1 with
      | ⟨s2, some err⟩ => ⟨s2, some err⟩
      | ⟨s2, none⟩ => writeResults env s2
  else
    ⟨s, some (Error.require "neither tolerance nor number of samples set")⟩

/-! ### A small instance -/

/-- A signature in which every collaborating class has one value. -/
def unitSig : Sig where
  Payoff := Unit
  CashOrNothingPayoff := Unit
  Exercise := Unit
  AmericanExercise := Unit
  Process := Unit
  Grid := Unit
  PathGenerator := Unit
  ControlPathPricer := Unit
  PricingEngine := Unit
  Model := Unit

/-- An environment over `unitSig` that provides no control variate. -/
def unitEnv : Env unitSig where
  nullReal := 1000000
  nullSize := 2147483647
  sizeModulus := 4294967296
  sizeOverflow := fun _ => 0
  allowsErrorEstimate := true
  castCashOrNothing := fun _ => some ()
  castAmerican := fun _ => some ()
  yearFraction := fun _ _ => 1
  makeGrid := fun _ _ => ()
  gridSize := fun _ => 2
  stateVariable := fun _ => 100
  controlPathPricer := none
  controlPricingEngine := none
  pathGenerator := Except.ok ()
  newModel := fun _ _ _ => Except.ok ()
  value := fun m _ _ => Except.ok m
  valueWithSamples := fun m _ => Except.ok m
  mean := fun _ => 5
  errorEstimate := fun _ => 1 / 10

/-- An engine over `unitSig` with the given control-variate flag, number of samples
and tolerance. -/
def unitEngine (controlVariate : Bool) (requiredSamples : ℕ) (requiredTolerance : ℚ) :
    Engine unitSig where
  maxTimeStepsPerYear_ := 12
  antitheticVariate_ := false
  controlVariate_ := controlVariate
  requiredSamples_ := requiredSamples
  requiredTolerance_ := requiredTolerance
  maxSamples_ := 2147483647
  seed_ := 0
  payoff := ()
  exercise := ()
  blackScholesProcess := ()

/-- The state of a new engine over `unitSig`. -/
def unitState : State unitSig where
  mcModel_ := none
  results_ := ⟨0, 0⟩
  calls := []

/-- The environment `unitEnv` with a control path pricer and a control pricing engine
provided. -/
def unitEnvControl : Env unitSig :=
  { unitEnv with controlPathPricer := some (), controlPricingEngine := some () }

/-- The sampling calls: the tolerance-driven `value(...)` and the fixed-count
`valueWithSamples(...)`. -/
def Call.isSampling : Call → Bool
  | Call.value _ _ => true
  | Call.valueWithSamples _ => true
  | _ => false

/-- The sampling call that the sampling block of `calculate` makes. -/
def samplingCall {σ : Sig} (env : Env σ) (eng : Engine σ) : Call :=
  if eng.requiredTolerance_ ≠ env.nullReal then
    if eng.maxSamples_ ≠ env.nullSize then
      Call.value eng.requiredTolerance_ (some eng.maxSamples_)
    else Call.value eng.requiredTolerance_ none
  else Call.valueWithSamples eng.requiredSamples_

end MCDigitalEngine

namespace Lattices

/-! ### The loop invariant -/

theorem segment_succ (begin dt : ℚ) (n : ℕ) :
    segment begin dt (n + 1) = segment begin dt n ++ [begin + (n : ℚ) * dt] := by
  simp [segment, List.range_succ]

theorem segment_succ_eq_cons (begin dt : ℚ) (n : ℕ) :
    ∃ rest, segment begin dt (n + 1) = begin :: rest := by
  refine ⟨(List.range n).map (fun (k : ℕ) => begin + ((k + 1 : ℕ) : ℚ) * dt), ?_⟩
  simp [segment, List.range_succ_eq_map, List.map_map, Function.comp_def]

theorem segment_chain (dtMax begin dt : ℚ) (hdt : 0 < dt) (hle : dt ≤ dtMax) (m : ℕ) :
    List.Chain' (Gap dtMax) (segment begin dt m) := by
  unfold segment
  rw [List.chain'_map]
  cases m with
  | zero => simp
  | succ k =>
    rw [List.chain'_range_succ]
    intro i _
    refine ⟨?_, ?_⟩
    · push_cast
      linarith
    · push_cast
      linarith

/-- The number of sub-steps of a segment `begin < e` is at least one, the sub-step is
positive and at most `dtMax`, and `nSteps` sub-steps lead from `begin` to `e`. -/
theorem nSteps_spec (dtMax begin e : ℚ) (hlt : begin < e) (hmax : 0 < dtMax) :
    1 ≤ toSize ((e - begin) / dtMax + 1) ∧
    0 < (e - begin) / (toSize ((e - begin) / dtMax + 1) : ℚ) ∧
    (e - begin) / (toSize ((e - begin) / dtMax + 1) : ℚ) ≤ dtMax ∧
    begin + (toSize ((e - begin) / dtMax + 1) : ℚ) *
      ((e - begin) / (toSize ((e - begin) / dtMax + 1) : ℚ)) = e := by
  have hlen : 0 < e - begin := by linarith
  have hq : 0 ≤ (e - begin) / dtMax := le_of_lt (div_pos hlen hmax)
  have h1 : 1 ≤ toSize ((e - begin) / dtMax + 1) := by
    unfold toSize
    apply Nat.le_floor
    push_cast
    linarith
  have hn : (0 : ℚ) < (toSize ((e - begin) / dtMax + 1) : ℚ) := by
    exact_mod_cast h1
  have hfl : (e - begin) / dtMax < (toSize ((e - begin) / dtMax + 1) : ℚ) := by
    have := Nat.lt_floor_add_one ((e - begin) / dtMax + 1)
    unfold toSize
    linarith
  refine ⟨h1, div_pos hlen hn, ?_, ?_⟩
  · rw [div_le_iff₀ hn]
    rw [div_lt_iff₀ hmax] at hfl
    linarith
  · rw [mul_div_cancel₀ _ (ne_of_gt hn)]
    ring

/-- One executed segment: the closed grid before it is a prefix of the closed grid
after it, and the chain of gaps is kept. -/
theorem step_closed (dtMax begin e : ℚ) (grid : List ℚ) (hlt : begin < e)
    (hmax : 0 < dtMax) (hch : List.Chain' (Gap dtMax) (closed (grid, begin))) :
    List.Chain' (Gap dtMax)
      (closed (grid ++ segment begin ((e - begin) / (toSize ((e - begin) / dtMax + 1) : ℚ))
        (toSize ((e - begin) / dtMax + 1)), e)) ∧
    closed (grid, begin) <+:
      closed (grid ++ segment begin ((e - begin) / (toSize ((e - begin) / dtMax + 1) : ℚ))
        (toSize ((e - begin) / dtMax + 1)), e) := by
  obtain ⟨h1, hpos, hle, hend⟩ := nSteps_spec dtMax begin e hlt hmax
  generalize toSize ((e - begin) / dtMax + 1) = n at h1 hpos hle hend
  generalize (e - begin) / (n : ℚ) = d at hpos hle hend
  have hcl : closed (grid ++ segment begin d n, e) = grid ++ segment begin d (n + 1) := by
    simp only [closed, segment_succ, hend, List.append_assoc]
  obtain ⟨k, rfl⟩ : ∃ k, n = k + 1 := ⟨n - 1, by omega⟩
  obtain ⟨rest, hrest⟩ := segment_succ_eq_cons begin d (k + 1)
  have hseg := segment_chain dtMax begin d hpos hle (k + 1 + 1)
  rw [hcl, hrest]
  rw [hrest] at hseg
  constructor
  · have := @List.Chain'.append_overlap ℚ (Gap dtMax) grid [begin] rest hch
      (by simpa using hseg) (by simp)
    simpa [closed] using this
  · refine ⟨rest, ?_⟩
    simp [closed]

/-- The loop invariant: started in a state whose closed grid is a chain of gaps, on
mandatory points ascending from `begin`, the loop ends in a state whose closed grid is
a chain of gaps that extends the initial one, ends at the last mandatory point and
contains every mandatory point. -/
theorem loop_spec (dtMax : ℚ) :
    ∀ (ts : List ℚ) (grid : List ℚ) (begin : ℚ),
      List.Chain (fun a b => a ≤ b) begin ts →
      (∀ e ∈ ts, begin < e → 0 < dtMax) →
      List.Chain' (Gap dtMax) (closed (grid, begin)) →
      List.Chain' (Gap dtMax) (closed (loop dtMax ts (grid, begin))) ∧
      closed (grid, begin) <+: closed (loop dtMax ts (grid, begin)) ∧
      (loop dtMax ts (grid, begin)).2 = (begin :: ts).getLast (List.cons_ne_nil _ _) ∧
      ∀ t ∈ ts, t ∈ closed (loop dtMax ts (grid, begin)) := by
  intro ts
  induction ts with
  | nil =>
    intro grid begin _ _ hch
    simpa [loop] using hch
  | cons e ts ih =>
    intro grid begin hasc hmax hch
    rw [List.chain_cons] at hasc
    obtain ⟨hbe, hasc⟩ := hasc
    by_cases heq : begin = e
    · subst heq
      have hmax2 : ∀ e ∈ ts, begin < e → 0 < dtMax :=
        fun x hx hlt => hmax x (List.mem_cons_of_mem _ hx) hlt
      obtain ⟨h1, h2, h3, h4⟩ := ih grid begin hasc hmax2 hch
      simp only [loop, if_true]
      refine ⟨h1, h2, ?_, ?_⟩
      · rw [h3]
        cases ts <;> simp [List.getLast_cons]
      · intro t ht
        rcases List.mem_cons.1 ht with rfl | ht
        · exact h2.subset (by simp [closed])
        · exact h4 t ht
    · have hlt : begin < e := lt_of_le_of_ne hbe heq
      have hpos : 0 < dtMax := hmax e (List.mem_cons_self _ _) hlt
      obtain ⟨hstep, hpre⟩ := step_closed dtMax begin e grid hlt hpos hch
      have hmax2 : ∀ x ∈ ts, e < x → 0 < dtMax := fun _ _ _ => hpos
      obtain ⟨h1, h2, h3, h4⟩ := ih _ e hasc hmax2 hstep
      simp only [loop, if_neg heq]
      refine ⟨h1, hpre.trans h2, ?_, ?_⟩
      · rw [h3]
        cases ts <;> simp [List.getLast_cons]
      · intro t ht
        rcases List.mem_cons.1 ht with rfl | ht
        · exact h2.subset (by simp [closed])
        · exact h4 t ht

/-- In an ascending list every element is at most the last one. -/
theorem le_getLast_of_sorted (l : List ℚ) (h : l ≠ []) (hs : List.Sorted (fun a b => a ≤ b) l) :
    ∀ t ∈ l, t ≤ l.getLast h := by
  intro t ht
  have hl := List.dropLast_append_getLast h
  rw [← hl] at ht hs
  rcases List.mem_append.1 ht with hd | hd
  · have := (List.pairwise_append.1 hs).2.2 t hd (l.getLast h) (by simp)
    exact this
  · simp at hd
    exact le_of_eq hd

/-- What the constructor builds from a non-empty ascending list of non-negative times
with at least one step: a grid that is a chain of gaps bounded by `last/steps`, begins
with `0`, ends with the last mandatory point and contains every mandatory point. -/
theorem TimeGrid_spec (times : List ℚ) (steps : ℕ) (hne : times ≠ [])
    (hasc : List.Sorted (fun a b => a ≤ b) times) (hnn : ∀ t ∈ times, 0 ≤ t)
    (hsteps : 1 ≤ steps) :
    ∃ g, TimeGrid times steps = some g ∧
      List.Chain' (Gap (times.getLast hne / (steps : ℚ))) g ∧
      [0] <+: g ∧
      g.getLast? = some (times.getLast hne) ∧
      ∀ t ∈ times, t ∈ g := by
  have hlast : times.getLast? = some (times.getLast hne) := List.getLast?_eq_getLast _ hne
  have hchain : List.Chain (fun a b => a ≤ b) 0 times := by
    rw [List.chain_iff_pairwise, List.pairwise_cons]
    exact ⟨hnn, hasc⟩
  have hmax : ∀ e ∈ times, (0 : ℚ) < e → 0 < times.getLast hne / (steps : ℚ) := by
    intro e he hpos
    have hle := le_getLast_of_sorted times hne hasc e he
    have hs : (0 : ℚ) < (steps : ℚ) := by exact_mod_cast hsteps
    exact div_pos (lt_of_lt_of_le hpos hle) hs
  obtain ⟨h1, h2, h3, h4⟩ :=
    loop_spec (times.getLast hne / (steps : ℚ)) times [] 0 hchain hmax (by simp [closed])
  refine ⟨closed (loop (times.getLast hne / (steps : ℚ)) times ([], 0)), ?_, h1, ?_, ?_, h4⟩
  · simp [TimeGrid, hlast, closed]
  · simpa [closed] using h2
  · rw [closed, List.getLast?_append, h3]
    simp [List.getLast_cons hne]

/-! ### `findIndex` -/

/-- C1: for a non-empty ascending list of non-negative times and `steps ≥ 1` the
constructor returns a grid, and every mandatory time is an element of it. -/
theorem TimeGrid_contains_times (times : List ℚ) (steps : ℕ) (hne : times ≠ [])
    (hasc : List.Sorted (fun a b => a ≤ b) times) (hnn : ∀ t ∈ times, 0 ≤ t)
    (hsteps : 1 ≤ steps) :
    ∃ g, TimeGrid times steps = some g ∧ ∀ t ∈ times, t ∈ g := by
  obtain ⟨g, hg, _, _, _, hmem⟩ := TimeGrid_spec times steps hne hasc hnn hsteps
  exact ⟨g, hg, hmem⟩

theorem TimeGrid_contains_times_witness :
    ∃ g, TimeGrid [1 / 2, 1 / 2, 2] 3 = some g ∧ ∀ t ∈ [(1 / 2 : ℚ), 1 / 2, 2], t ∈ g :=
  TimeGrid_contains_times [1 / 2, 1 / 2, 2] 3 (by simp) (by simp [List.Sorted]; norm_num)
    (by simp) (by decide)

/-- C3: for a non-empty ascending list of non-negative times with horizon the last
element, and `steps ≥ 1`, every consecutive gap of the grid is at most
`horizon/steps`. -/
theorem TimeGrid_gap_le (times : List ℚ) (steps : ℕ) (hne : times ≠ [])
    (hasc : List.Sorted (fun a b => a ≤ b) times) (hnn : ∀ t ∈ times, 0 ≤ t)
    (hsteps : 1 ≤ steps) :
    ∃ g, TimeGrid times steps = some g ∧
      ∀ (i : ℕ) (h : i + 1 < g.length),
        g.get ⟨i + 1, h⟩ - g.get ⟨i, Nat.lt_of_succ_lt h⟩ ≤
          times.getLast hne / (steps : ℚ) := by
  obtain ⟨g, hg, hch, _, _, _⟩ := TimeGrid_spec times steps hne hasc hnn hsteps
  refine ⟨g, hg, ?_⟩
  intro i h
  have := (List.chain'_iff_get.1 hch i (by omega)).2
  simpa using this

theorem TimeGrid_gap_le_witness :
    ∃ g, TimeGrid [1, 5 / 2] 4 = some g ∧
      ∀ (i : ℕ) (h : i + 1 < g.length),
        g.get ⟨i + 1, h⟩ - g.get ⟨i, Nat.lt_of_succ_lt h⟩ ≤
          List.getLast [(1 : ℚ), 5 / 2] (by simp) / ((4 : ℕ) : ℚ) :=
  TimeGrid_gap_le [1, 5 / 2] 4 (by simp) (by simp [List.Sorted]; norm_num)
    (by simp; norm_num) (by decide)

/-- C4: for a non-empty ascending list of non-negative times and `steps ≥ 1` the grid
is non-empty, its first element is `0` and its last element is the last element of
`times`. -/
theorem TimeGrid_first_last (times : List ℚ) (steps : ℕ) (hne : times ≠ [])
    (hasc : List.Sorted (fun a b => a ≤ b) times) (hnn : ∀ t ∈ times, 0 ≤ t)
    (hsteps : 1 ≤ steps) :
    ∃ g, TimeGrid times steps = some g ∧ g ≠ [] ∧ g.head? = some 0 ∧
      g.getLast? = some (times.getLast hne) := by
  obtain ⟨g, hg, _, hpre, hlast, _⟩ := TimeGrid_spec times steps hne hasc hnn hsteps
  obtain ⟨r, rfl⟩ := hpre
  exact ⟨_, hg, by simp, by simp, hlast⟩

theorem TimeGrid_first_last_witness :
    ∃ g, TimeGrid [2, 3] 5 = some g ∧ g ≠ [] ∧ g.head? = some 0 ∧
      g.getLast? = some (List.getLast [(2 : ℚ), 3] (by simp)) :=
  TimeGrid_first_last [2, 3] 5 (by simp) (by simp [List.Sorted]; norm_num)
    (by simp) (by decide)

end Lattices

namespace Lattices

/-- With `steps = 0` the loop runs with `dtMax = 0`: every segment gets one step, and
the closed grid grows by the mandatory point alone. -/
theorem loop_zero_spec :
    ∀ (ts : List ℚ) (grid : List ℚ) (begin : ℚ),
      List.Chain (fun a b => a ≤ b) begin ts →
      List.Chain' (fun a b => a < b) (closed (grid, begin)) →
      List.Chain' (fun a b => a < b) (closed (loop 0 ts (grid, begin))) ∧
      ∀ t, t ∈ closed (loop 0 ts (grid, begin)) ↔ t ∈ closed (grid, begin) ∨ t ∈ ts := by
  intro ts
  induction ts with
  | nil =>
    intro grid begin _ hch
    simpa [loop] using hch
  | cons e ts ih =>
    intro grid begin hasc hch
    rw [List.chain_cons] at hasc
    obtain ⟨hbe, hasc⟩ := hasc
    by_cases heq : begin = e
    · subst heq
      obtain ⟨h1, h2⟩ := ih grid begin hasc hch
      simp only [loop, if_true]
      refine ⟨h1, ?_⟩
      intro t
      rw [h2 t]
      simp only [closed, List.mem_append, List.mem_singleton, List.mem_cons]
      tauto
    · have hlt : begin < e := lt_of_le_of_ne hbe heq
      have hseg : segment begin ((e - begin) / ((toSize ((e - begin) / 0 + 1) : ℕ) : ℚ))
          (toSize ((e - begin) / 0 + 1)) = [begin] := by
        simp [toSize, segment, List.range_succ]
      have hch2 : List.Chain' (fun a b : ℚ => a < b) (closed (grid ++ [begin], e)) := by
        have : closed (grid ++ [begin], e) = closed (grid, begin) ++ [e] := by
          simp [closed]
        rw [this]
        refine List.Chain'.append hch (by simp) ?_
        intro x hx y hy
        simp only [closed, List.getLast?_append, List.getLast?_singleton, Option.mem_def,
          Option.or_some, Option.some.injEq] at hx
        simp only [List.head?_cons, Option.mem_def, Option.some.injEq] at hy
        rw [← hx, ← hy]
        exact hlt
      obtain ⟨h1, h2⟩ := ih (grid ++ [begin]) e hasc hch2
      simp only [loop, if_neg heq, hseg]
      refine ⟨h1, ?_⟩
      intro t
      rw [h2 t]
      simp only [closed, List.mem_append, List.mem_singleton, List.mem_cons]
      tauto

/-- C6, as the code has it: the constructor does not check `steps`. For a non-empty
ascending list of non-negative times, `TimeGrid(times, 0)` is not rejected; it
returns the strictly increasing grid whose elements are `0` and the mandatory
points. -/
theorem TimeGrid_zero_steps (times : List ℚ) (hne : times ≠ [])
    (hasc : List.Sorted (fun a b => a ≤ b) times) (hnn : ∀ t ∈ times, 0 ≤ t) :
    ∃ g, TimeGrid times 0 = some g ∧
      List.Sorted (fun a b => a < b) g ∧ ∀ t, t ∈ g ↔ t = 0 ∨ t ∈ times := by
  have hlast : times.getLast? = some (times.getLast hne) := List.getLast?_eq_getLast _ hne
  have hchain : List.Chain (fun a b => a ≤ b) 0 times := by
    rw [List.chain_iff_pairwise, List.pairwise_cons]
    exact ⟨hnn, hasc⟩
  obtain ⟨h1, h2⟩ := loop_zero_spec times [] 0 hchain (by simp [closed])
  refine ⟨closed (loop 0 times ([], 0)), ?_, List.chain'_iff_pairwise.1 h1, ?_⟩
  · simp [TimeGrid, hlast, closed]
  · intro t
    rw [h2 t]
    simp [closed]

theorem TimeGrid_zero_steps_witness :
    ∃ g, TimeGrid [1, 1, 2] 0 = some g ∧
      List.Sorted (fun a b => a < b) g ∧ ∀ t, t ∈ g ↔ t = 0 ∨ t ∈ [(1 : ℚ), 1, 2] :=
  TimeGrid_zero_steps [1, 1, 2] (by simp) (by simp [List.Sorted]) (by simp)

/-- C6 as stated fails: `TimeGrid([0], 0)` is not rejected, it is the grid `[0]`. -/
theorem zero_steps_not_rejected :
    TimeGrid [0] 0 = some [0] ∧ ¬ ∀ times : List ℚ, TimeGrid times 0 = none := by
  have h : TimeGrid [0] 0 = some [0] := by simp [TimeGrid, loop]
  refine ⟨h, ?_⟩
  intro hall
  rw [hall [0]] at h
  exact Option.noConfusion h

end Lattices

namespace Optimization

/-- C9 fails on the code at the second coordinate: for `value(x) = x[0]*x[1]` at
`x = [0, 0]` with the default epsilon, `gradient` writes `[0, -1e-8]`, while the
central finite difference at `x` in the coordinate `1` is `0`. The loop does not put
`xx[0]` back to `x[0]` before it moves to the coordinate `1`. -/
theorem gradient_productCost :
    gradient productCost [0, 0] [0, 0] = some [0, -(1 / 100000000)] ∧
    centralDifference productCost [0, 0] 1 = 0 := by
  constructor
  · norm_num [gradient, gradientStep, productCost, defaultEpsilon, List.range_succ]
  · norm_num [centralDifference, productCost, defaultEpsilon]

end Optimization

namespace MCDigitalEngine

/-! ## Claims on `MCDigitalEngine::calculate` -/

theorem pathPricer_error_ne {σ : Sig} (env : Env σ) (eng : Engine σ) (err : Error)
    (h : pathPricer env eng = Except.error err) :
    err ≠ Error.require "neither tolerance nor number of samples set" := by
  unfold pathPricer at h
  split at h
  · cases h
    decide
  · split at h
    · cases h
      decide
    · cases h

theorem initModel_error_ne {σ : Sig} (env : Env σ) (eng : Engine σ) (s : State σ) :
    (initModel env eng s).error ≠
      some (Error.require "neither tolerance nor number of samples set") := by
  unfold initModel
  split_ifs
  · split
    · simp
    · split <;> simp
  · split
    · simp
    · split
      · rename_i err herr
        simpa using pathPricer_error_ne env eng err herr
      · split <;> simp

theorem sampleWith_error_ne {σ : Sig} (s : State σ) (c : Call)
    (run : σ.Model → Except String σ.Model) (msg : String) :
    (sampleWith s c run).error ≠ some (Error.require msg) := by
  unfold sampleWith
  split
  · simp
  · split <;> simp

theorem runSampling_error_ne {σ : Sig} (env : Env σ) (eng : Engine σ) (s : State σ)
    (msg : String) : (runSampling env eng s).error ≠ some (Error.require msg) := by
  unfold runSampling
  split_ifs <;> exact sampleWith_error_ne _ _ _ _

theorem writeResults_error_ne {σ : Sig} (env : Env σ) (s : State σ) (msg : String) :
    (writeResults env s).error ≠ some (Error.require msg) := by
  unfold writeResults
  split
  · simp
  · dsimp only
    split_ifs <;> simp

/-- C7: `calculate` fails with "neither tolerance nor number of samples set" if and
only if `requiredTolerance_` and `requiredSamples_` are both the null value, and in
that case it ends in the state it started in: no call has been made, no model built,
no result written. -/
theorem calculate_neither_set {σ : Sig} (env : Env σ) (eng : Engine σ) (s : State σ) :
    ((calculate env eng s).error =
        some (Error.require "neither tolerance nor number of samples set") ↔
      (eng.requiredTolerance_ = env.nullReal ∧ eng.requiredSamples_ = env.nullSize)) ∧
    (eng.requiredTolerance_ = env.nullReal ∧ eng.requiredSamples_ = env.nullSize →
      (calculate env eng s).state = s) := by
  by_cases hset : eng.requiredTolerance_ ≠ env.nullReal ∨ eng.requiredSamples_ ≠ env.nullSize
  · have hnot : ¬ (eng.requiredTolerance_ = env.nullReal ∧
        eng.requiredSamples_ = env.nullSize) := by
      intro h
      rcases hset with h1 | h1
      · exact h1 h.1
      · exact h1 h.2
    refine ⟨⟨?_, fun h => absurd h hnot⟩, fun h => absurd h hnot⟩
    intro herr
    exfalso
    unfold calculate at herr
    rw [if_pos hset] at herr
    split at herr
    · rename_i s1 err hinit
      have := initModel_error_ne env eng s
      rw [hinit] at this
      exact this herr
    · rename_i s1 hinit
      split at herr
      · rename_i s2 err hrun
        have := runSampling_error_ne env eng s1
          "neither tolerance nor number of samples set"
        rw [hrun] at this
        exact this herr
      · exact writeResults_error_ne env _ _ herr
  · have hboth : eng.requiredTolerance_ = env.nullReal ∧
        eng.requiredSamples_ = env.nullSize := by
      constructor
      · by_contra h
        exact hset (Or.inl h)
      · by_contra h
        exact hset (Or.inr h)
    have hcalc : calculate env eng s =
        ⟨s, some (Error.require "neither tolerance nor number of samples set")⟩ := by
      unfold calculate
      rw [if_neg hset]
    rw [hcalc]
    exact ⟨⟨fun _ => hboth, fun _ => rfl⟩, fun _ => rfl⟩

theorem calculate_neither_set_witness :
    (calculate unitEnv (unitEngine false 2147483647 1000000) unitState).state = unitState :=
  (calculate_neither_set unitEnv (unitEngine false 2147483647 1000000) unitState).2
    ⟨rfl, rfl⟩

/-- C8: when control-variate mode is requested and a convergence criterion is set,
`calculate` fails with a `QL_REQUIRE` error whenever `controlPathPricer()` or
`controlPricingEngine()` is null; the model and the results are left as they were,
and the only calls made are those two queries, so nothing is sampled. -/
theorem calculate_control_missing {σ : Sig} (env : Env σ) (eng : Engine σ) (s : State σ)
    (hcv : eng.controlVariate_ = true)
    (hset : eng.requiredTolerance_ ≠ env.nullReal ∨ eng.requiredSamples_ ≠ env.nullSize)
    (hmiss : env.controlPathPricer = none ∨ env.controlPricingEngine = none) :
    ∃ msg, (calculate env eng s).error = some (Error.require msg) ∧
      (calculate env eng s).state.mcModel_ = s.mcModel_ ∧
      (calculate env eng s).state.results_ = s.results_ ∧
      ∀ c ∈ (calculate env eng s).state.calls,
        c ∈ s.calls ∨ c = Call.controlPathPricer ∨ c = Call.controlPricingEngine := by
  unfold calculate
  rw [if_pos hset]
  unfold initModel
  rw [if_pos hcv]
  cases hpp : env.controlPathPricer with
  | none =>
    refine ⟨_, rfl, rfl, rfl, ?_⟩
    intro c hc
    simp only [State.log, List.mem_append, List.mem_singleton] at hc
    tauto
  | some pp =>
    have hpe : env.controlPricingEngine = none := by
      rcases hmiss with h | h
      · rw [hpp] at h
        cases h
      · exact h
    simp only [hpe]
    refine ⟨_, rfl, rfl, rfl, ?_⟩
    intro c hc
    simp only [State.log, List.mem_append, List.mem_cons, List.mem_singleton,
      List.not_mem_nil, or_false] at hc
    tauto

theorem calculate_control_missing_witness :
    ∃ msg, (calculate unitEnv (unitEngine true 1000 1000000) unitState).error =
        some (Error.require msg) ∧
      (calculate unitEnv (unitEngine true 1000 1000000) unitState).state.mcModel_ =
        unitState.mcModel_ ∧
      (calculate unitEnv (unitEngine true 1000 1000000) unitState).state.results_ =
        unitState.results_ ∧
      ∀ c ∈ (calculate unitEnv (unitEngine true 1000 1000000) unitState).state.calls,
        c ∈ unitState.calls ∨ c = Call.controlPathPricer ∨ c = Call.controlPricingEngine :=
  calculate_control_missing unitEnv (unitEngine true 1000 1000000) unitState rfl
    (Or.inr (by decide)) (Or.inl rfl)

end MCDigitalEngine

namespace MCDigitalEngine

/-! ## Further claims on `MCDigitalEngine` -/

/-- C11: `pathPricer` fails with "wrong payoff given" whenever the payoff is not a
cash-or-nothing payoff; otherwise it fails with "wrong exercise given" whenever the
exercise is not an American exercise; when both casts succeed it returns a
`DigitalPathPricer` built on the two cast pointers, and it returns one only then. -/
theorem pathPricer_validation {σ : Sig} (env : Env σ) (eng : Engine σ) :
    (env.castCashOrNothing eng.payoff = none →
      pathPricer env eng = Except.error (Error.require "wrong payoff given")) ∧
    (env.castCashOrNothing eng.payoff ≠ none → env.castAmerican eng.exercise = none →
      pathPricer env eng = Except.error (Error.require "wrong exercise given")) ∧
    (∀ p e, env.castCashOrNothing eng.payoff = some p →
      env.castAmerican eng.exercise = some e →
      ∃ d, pathPricer env eng = Except.ok d ∧ d.payoff_ = p ∧ d.exercise_ = e) ∧
    (∀ d, pathPricer env eng = Except.ok d →
      env.castCashOrNothing eng.payoff = some d.payoff_ ∧
      env.castAmerican eng.exercise = some d.exercise_) := by
  refine ⟨?_, ?_, ?_, ?_⟩
  · intro h
    simp [pathPricer, h]
  · intro h1 h2
    cases hp : env.castCashOrNothing eng.payoff with
    | none => exact absurd hp h1
    | some p => simp [pathPricer, hp, h2]
  · intro p e hp he
    simp only [pathPricer, hp, he]
    exact ⟨_, rfl, rfl, rfl⟩
  · intro d hd
    unfold pathPricer at hd
    cases hp : env.castCashOrNothing eng.payoff with
    | none => simp [hp] at hd
    | some p =>
      cases he : env.castAmerican eng.exercise with
      | none => simp [hp, he] at hd
      | some e =>
        simp only [hp, he, Except.ok.injEq] at hd
        subst hd
        exact ⟨rfl, rfl⟩

theorem pathPricer_validation_witness :
    ∃ d, pathPricer unitEnv (unitEngine false 1000 1000000) = Except.ok d ∧
      d.payoff_ = () ∧ d.exercise_ = () :=
  (pathPricer_validation unitEnv (unitEngine false 1000 1000000)).2.2.1 () () rfl rfl

end MCDigitalEngine

namespace MCDigitalEngine

/-! ### The phases of `calculate` -/

theorem initModel_frame {σ : Sig} (env : Env σ) (eng : Engine σ) (s : State σ) :
    (initModel env eng s).state.results_ = s.results_ ∧
    ∃ cs, (initModel env eng s).state.calls = s.calls ++ cs ∧
      ∀ c ∈ cs, c.isSampling = false := by
  unfold initModel
  split_ifs
  · split
    · exact ⟨rfl, _, rfl, by simp [Call.isSampling]⟩
    · split
      · exact ⟨rfl, _, rfl, by simp [Call.isSampling]⟩
      · exact ⟨rfl, _, rfl, by simp [Call.isSampling]⟩
  · split
    · exact ⟨rfl, _, rfl, by simp [Call.isSampling]⟩
    · split
      · exact ⟨rfl, _, rfl, by simp [Call.isSampling]⟩
      · split
        · exact ⟨rfl, _, rfl, by simp [Call.isSampling]⟩
        · exact ⟨rfl, _, rfl, by simp [Call.isSampling]⟩

theorem sampleWith_frame {σ : Sig} (s : State σ) (c : Call)
    (run : σ.Model → Except String σ.Model) :
    (sampleWith s c run).state.results_ = s.results_ ∧
    (sampleWith s c run).state.calls = s.calls ++ [c] ∧
    ((sampleWith s c run).error = none →
      ∃ m m1, s.mcModel_ = some m ∧ run m = Except.ok m1 ∧
        (sampleWith s c run).state.mcModel_ = some m1) := by
  unfold sampleWith
  split
  · exact ⟨rfl, rfl, by simp⟩
  · rename_i m hm
    split
    · exact ⟨rfl, rfl, by simp⟩
    · rename_i m1 hrun
      exact ⟨rfl, rfl, fun _ => ⟨m, m1, hm, hrun, rfl⟩⟩

theorem runSampling_frame {σ : Sig} (env : Env σ) (eng : Engine σ) (s : State σ) :
    (runSampling env eng s).state.results_ = s.results_ ∧
    (runSampling env eng s).state.calls = s.calls ++ [samplingCall env eng] ∧
    ((runSampling env eng s).error = none →
      ∃ m1, (runSampling env eng s).state.mcModel_ = some m1) := by
  unfold runSampling samplingCall
  split_ifs
  · obtain ⟨h1, h2, h3⟩ := sampleWith_frame s
      (Call.value eng.requiredTolerance_ (some eng.maxSamples_))
      (fun m => env.value m eng.requiredTolerance_ (some eng.maxSamples_))
    exact ⟨h1, h2, fun h => by obtain ⟨_, m1, _, _, hm⟩ := h3 h; exact ⟨m1, hm⟩⟩
  · obtain ⟨h1, h2, h3⟩ := sampleWith_frame s
      (Call.value eng.requiredTolerance_ none)
      (fun m => env.value m eng.requiredTolerance_ none)
    exact ⟨h1, h2, fun h => by obtain ⟨_, m1, _, _, hm⟩ := h3 h; exact ⟨m1, hm⟩⟩
  · obtain ⟨h1, h2, h3⟩ := sampleWith_frame s
      (Call.valueWithSamples eng.requiredSamples_)
      (fun m => env.valueWithSamples m eng.requiredSamples_)
    exact ⟨h1, h2, fun h => by obtain ⟨_, m1, _, _, hm⟩ := h3 h; exact ⟨m1, hm⟩⟩

theorem writeResults_spec {σ : Sig} (env : Env σ) (s : State σ) :
    (∃ rest, (writeResults env s).state.calls = s.calls ++ rest ∧
      ∀ c ∈ rest, c.isSampling = false) ∧
    (s.mcModel_ = none → (writeResults env s).error = some Error.nullModel) ∧
    (∀ m, s.mcModel_ = some m →
      (writeResults env s).error = none ∧
      (writeResults env s).state.mcModel_ = some m ∧
      (writeResults env s).state.results_.value = env.mean m ∧
      (env.allowsErrorEstimate = true →
        (writeResults env s).state.results_.errorEstimate = env.errorEstimate m) ∧
      (env.allowsErrorEstimate = false →
        (writeResults env s).state.results_.errorEstimate = s.results_.errorEstimate)) := by
  unfold writeResults
  cases hm : s.mcModel_ with
  | none =>
    refine ⟨⟨[], by simp, by simp⟩, fun _ => rfl, fun m h => by cases h⟩
  | some m0 =>
    cases hflag : env.allowsErrorEstimate with
    | true =>
      refine ⟨⟨[Call.mean, Call.errorEstimate], by simp [State.log], by simp [Call.isSampling]⟩,
        (fun h => by cases h), ?_⟩
      intro m h
      cases h
      simp [State.log, hm]
    | false =>
      refine ⟨⟨[Call.mean], by simp [State.log], by simp [Call.isSampling]⟩,
        (fun h => by cases h), ?_⟩
      intro m h
      cases h
      simp [State.log, hm]

/-- How a run of `calculate` that passes the first check goes on, by the outcome of
the initialisation and of the sampling. -/
theorem calculate_phases {σ : Sig} (env : Env σ) (eng : Engine σ) (s : State σ)
    (hset : eng.requiredTolerance_ ≠ env.nullReal ∨ eng.requiredSamples_ ≠ env.nullSize) :
    (∀ err, (initModel env eng s).error = some err →
      calculate env eng s = initModel env eng s) ∧
    ((initModel env eng s).error = none →
      (∀ err, (runSampling env eng (initModel env eng s).state).error = some err →
        calculate env eng s = runSampling env eng (initModel env eng s).state) ∧
      ((runSampling env eng (initModel env eng s).state).error = none →
        calculate env eng s =
          writeResults env (runSampling env eng (initModel env eng s).state).state)) := by
  unfold calculate
  rw [if_pos hset]
  rcases hinit : initModel env eng s with ⟨s1, _ | err1⟩
  · refine ⟨fun err h => (by cases h), fun _ => ?_⟩
    rcases hrun : runSampling env eng s1 with ⟨s2, _ | err2⟩
    · exact ⟨fun err h => (by cases h), fun _ => (by simp only [hrun])⟩
    · exact ⟨fun err _ => (by simp only [hrun]), fun h => by cases h⟩
  · exact ⟨fun err _ => rfl, fun h => by cases h⟩

end MCDigitalEngine

namespace MCDigitalEngine

theorem calculate_error_ne_of_set {σ : Sig} (env : Env σ) (eng : Engine σ) (s : State σ)
    (hset : eng.requiredTolerance_ ≠ env.nullReal ∨ eng.requiredSamples_ ≠ env.nullSize) :
    (calculate env eng s).error ≠
      some (Error.require "neither tolerance nor number of samples set") := by
  obtain ⟨h1, h2⟩ := calculate_phases env eng s hset
  cases hinit : (initModel env eng s).error with
  | some err =>
    rw [h1 err hinit]
    exact initModel_error_ne env eng s
  | none =>
    obtain ⟨h3, h4⟩ := h2 hinit
    cases hrun : (runSampling env eng (initModel env eng s).state).error with
    | some err =>
      rw [h3 err hrun]
      exact runSampling_error_ne env eng _ _
    | none =>
      rw [h4 hrun]
      exact writeResults_error_ne env _ _

/-- C12, as the code has it: a configuration that supplies both a tolerance and a
fixed sample count is not rejected by the configuration check of `calculate`; it is
run as the tolerance-driven configuration, the sample count being ignored (the run is
the same for every value of `requiredSamples_`). -/
theorem calculate_both_set {σ : Sig} (env : Env σ) (eng : Engine σ) (s : State σ)
    (htol : eng.requiredTolerance_ ≠ env.nullReal)
    (_hsamples : eng.requiredSamples_ ≠ env.nullSize) :
    (calculate env eng s).error ≠
      some (Error.require "neither tolerance nor number of samples set") ∧
    ∀ n : ℕ, calculate env { eng with requiredSamples_ := n } s = calculate env eng s := by
  refine ⟨calculate_error_ne_of_set env eng s (Or.inl htol), ?_⟩
  intro n
  simp only [calculate, initModel, runSampling, pathPricer, timeGrid, htol, ne_eq,
    not_false_eq_true, true_or, if_true]

theorem calculate_both_set_witness :
    (calculate unitEnv (unitEngine false 1000 (1 / 100)) unitState).error ≠
      some (Error.require "neither tolerance nor number of samples set") ∧
    ∀ n : ℕ, calculate unitEnv
      { unitEngine false 1000 (1 / 100) with requiredSamples_ := n } unitState =
        calculate unitEnv (unitEngine false 1000 (1 / 100)) unitState :=
  calculate_both_set unitEnv (unitEngine false 1000 (1 / 100)) unitState
    (by norm_num [unitEngine, unitEnv]) (by norm_num [unitEngine, unitEnv])

/-- C12 as stated fails: with the tolerance `1/100` and the sample count `1000` both
set, `calculate` is not rejected; it runs to the end, sampling by `value(1/100)`. -/
theorem both_set_accepted :
    (unitEngine false 1000 (1 / 100)).requiredTolerance_ ≠ unitEnv.nullReal ∧
    (unitEngine false 1000 (1 / 100)).requiredSamples_ ≠ unitEnv.nullSize ∧
    (calculate unitEnv (unitEngine false 1000 (1 / 100)) unitState).error = none ∧
    (calculate unitEnv (unitEngine false 1000 (1 / 100)) unitState).state.calls =
      [Call.pathGenerator, Call.pathPricer, Call.newModel, Call.value (1 / 100) none,
        Call.mean, Call.errorEstimate] := by
  norm_num [calculate, initModel, runSampling, sampleWith, writeResults, pathPricer,
    timeGrid, State.log, unitEngine, unitEnv, unitState]

/-- C13: on every run of `calculate` that ends without failure there is a model in
`mcModel_`, the reported value is the mean of its sample accumulator, and the error
estimate of the results is the accumulator's error estimate when
`RNG::allowsErrorEstimate` is true and is left as it was when the flag is false. -/
theorem calculate_results {σ : Sig} (env : Env σ) (eng : Engine σ) (s : State σ)
    (hok : (calculate env eng s).error = none) :
    ∃ m, (calculate env eng s).state.mcModel_ = some m ∧
      (calculate env eng s).state.results_.value = env.mean m ∧
      (env.allowsErrorEstimate = true →
        (calculate env eng s).state.results_.errorEstimate = env.errorEstimate m) ∧
      (env.allowsErrorEstimate = false →
        (calculate env eng s).state.results_.errorEstimate = s.results_.errorEstimate) := by
  by_cases hset : eng.requiredTolerance_ ≠ env.nullReal ∨ eng.requiredSamples_ ≠ env.nullSize
  · obtain ⟨h1, h2⟩ := calculate_phases env eng s hset
    cases hinit : (initModel env eng s).error with
    | some err =>
      rw [h1 err hinit, hinit] at hok
      cases hok
    | none =>
      obtain ⟨h3, h4⟩ := h2 hinit
      cases hrun : (runSampling env eng (initModel env eng s).state).error with
      | some err =>
        rw [h3 err hrun, hrun] at hok
        cases hok
      | none =>
        obtain ⟨hres1, _⟩ := initModel_frame env eng s
        obtain ⟨hres2, _, hmodel⟩ := runSampling_frame env eng (initModel env eng s).state
        obtain ⟨m, hm⟩ := hmodel hrun
        obtain ⟨_, _, hw⟩ :=
          writeResults_spec env (runSampling env eng (initModel env eng s).state).state
        obtain ⟨_, hw2, hw3, hw4, hw5⟩ := hw m hm
        rw [h4 hrun]
        refine ⟨m, hw2, hw3, hw4, ?_⟩
        intro hflag
        rw [hw5 hflag, hres2, hres1]
  · unfold calculate at hok
    rw [if_neg hset] at hok
    cases hok

theorem calculate_results_witness :
    ∃ m, (calculate unitEnv (unitEngine false 1000 1000000) unitState).state.mcModel_ =
        some m ∧
      (calculate unitEnv (unitEngine false 1000 1000000) unitState).state.results_.value =
        unitEnv.mean m ∧
      (unitEnv.allowsErrorEstimate = true →
        (calculate unitEnv (unitEngine false 1000 1000000) unitState).state.results_.errorEstimate
          = unitEnv.errorEstimate m) ∧
      (unitEnv.allowsErrorEstimate = false →
        (calculate unitEnv (unitEngine false 1000 1000000) unitState).state.results_.errorEstimate
          = unitState.results_.errorEstimate) :=
  calculate_results unitEnv (unitEngine false 1000 1000000) unitState
    (by norm_num [calculate, initModel, runSampling, sampleWith, writeResults, pathPricer,
      timeGrid, State.log, unitEngine, unitEnv, unitState])

/-- C18 fails on the code in control-variate mode: with a control path pricer and a
control pricing engine provided and a sample count set, a new engine passes the
checks, but no model is installed; the sampling call is made on the null `mcModel_`
and the run ends there, with `mcModel_` still null. -/
theorem calculate_control_no_model :
    (initModel unitEnvControl (unitEngine true 1000 1000000) unitState).error = none ∧
    (initModel unitEnvControl (unitEngine true 1000 1000000) unitState).state.mcModel_ =
      none ∧
    (calculate unitEnvControl (unitEngine true 1000 1000000) unitState).error =
      some Error.nullModel ∧
    (calculate unitEnvControl (unitEngine true 1000 1000000) unitState).state.mcModel_ =
      none ∧
    (calculate unitEnvControl (unitEngine true 1000 1000000) unitState).state.calls =
      [Call.controlPathPricer, Call.controlPricingEngine, Call.valueWithSamples 1000] := by
  norm_num [calculate, initModel, runSampling, sampleWith, State.log, unitEngine,
    unitEnvControl, unitEnv, unitState]

end MCDigitalEngine

namespace Lattices

/-! ## Further claims on `TimeGrid` -/

/-- C14: `TimeGrid([1, 2, 3], 6)` is the grid
`[0, 1/3, 2/3, 1, 4/3, 5/3, 2, 7/3, 8/3, 3]`: with `dtMax = 1/2` each of the three
segments gets `nSteps = 3` sub-steps; the grid has 10 points, is strictly increasing and
contains `1`, `2` and `3`. -/
theorem TimeGrid_scenario :
    TimeGrid [1, 2, 3] 6 = some [0, 1 / 3, 2 / 3, 1, 4 / 3, 5 / 3, 2, 7 / 3, 8 / 3, 3] ∧
    ((3 : ℚ) / ((6 : ℕ) : ℚ) = 1 / 2 ∧ toSize ((1 - 0) / (1 / 2) + 1) = 3 ∧
      toSize ((2 - 1) / (1 / 2) + 1) = 3 ∧ toSize ((3 - 2) / (1 / 2) + 1) = 3) ∧
    ([0, 1 / 3, 2 / 3, 1, 4 / 3, 5 / 3, 2, 7 / 3, 8 / 3, (3 : ℚ)].length = 10 ∧
      List.Sorted (fun a b => a < b)
        [0, 1 / 3, 2 / 3, 1, 4 / 3, 5 / 3, 2, 7 / 3, 8 / 3, (3 : ℚ)] ∧
      (1 : ℚ) ∈ [0, 1 / 3, 2 / 3, 1, 4 / 3, 5 / 3, 2, 7 / 3, 8 / 3, (3 : ℚ)] ∧
      (2 : ℚ) ∈ [0, 1 / 3, 2 / 3, 1, 4 / 3, 5 / 3, 2, 7 / 3, 8 / 3, (3 : ℚ)] ∧
      (3 : ℚ) ∈ [0, 1 / 3, 2 / 3, 1, 4 / 3, 5 / 3, 2, 7 / 3, 8 / 3, (3 : ℚ)]) := by
  refine ⟨?_, ⟨?_, ?_, ?_, ?_⟩, ?_, ?_, ?_, ?_, ?_⟩
  · norm_num [TimeGrid, loop, toSize, segment, List.range_succ]
  · norm_num
  · norm_num [toSize]
  · norm_num [toSize]
  · norm_num [toSize]
  · rfl
  · simp only [List.Sorted, List.pairwise_cons, List.mem_cons, List.mem_singleton,
      List.not_mem_nil, List.Pairwise.nil, forall_eq_or_imp, forall_eq]
    norm_num
  · simp
  · simp
  · simp

theorem loop_cons_same (dtMax e : ℚ) (ts : List ℚ) (st : List ℚ × ℚ) :
    loop dtMax (e :: e :: ts) st = loop dtMax (e :: ts) st := by
  obtain ⟨grid, begin⟩ := st
  by_cases h : begin = e
  · simp [loop, h]
  · simp [loop, h]

theorem loop_collapse (dtMax : ℚ) :
    ∀ (ts : List ℚ) (st : List ℚ × ℚ), loop dtMax (collapse ts) st = loop dtMax ts st := by
  intro ts
  induction ts using collapse.induct with
  | case1 => intro st; rfl
  | case2 a => intro st; rfl
  | case3 a l ih =>
    intro st
    rw [collapse, if_pos rfl, ih, loop_cons_same]
  | case4 a b l hab ih =>
    intro st
    obtain ⟨grid, begin⟩ := st
    rw [collapse, if_neg hab]
    by_cases h : begin = a
    · simp only [loop, h, if_true]
      exact ih _
    · simp only [loop, if_neg h]
      exact ih _

theorem getLast?_collapse :
    ∀ ts : List ℚ, (collapse ts).getLast? = ts.getLast? := by
  intro ts
  induction ts using collapse.induct with
  | case1 => rfl
  | case2 a => rfl
  | case3 a l ih =>
    rw [collapse, if_pos rfl, ih]
    simp [List.getLast?_cons_cons]
  | case4 a b l hab ih =>
    rw [collapse, if_neg hab]
    have hne : collapse (b :: l) ≠ [] := by
      intro h
      rw [h, List.getLast?_eq_getLast _ (List.cons_ne_nil b l)] at ih
      cases ih
    obtain ⟨c, r, hcr⟩ := List.exists_cons_of_ne_nil hne
    rw [hcr] at ih ⊢
    rw [List.getLast?_cons_cons, ih, List.getLast?_cons_cons]

/-- C16: for every non-empty list of times (the ascending lists of non-negative times
among them) and every step count, the constructor returns the same grid on `times`, on
`times` with adjacent repeated values collapsed, and on `times` with the time `0` put
in front. -/
theorem TimeGrid_duplicate_merge (times : List ℚ) (steps : ℕ) (hne : times ≠ []) :
    ∃ g, TimeGrid times steps = some g ∧ TimeGrid (collapse times) steps = some g ∧
      TimeGrid (0 :: times) steps = some g := by
  have hlast : times.getLast? = some (times.getLast hne) := List.getLast?_eq_getLast _ hne
  refine ⟨closed (loop (times.getLast hne / (steps : ℚ)) times ([], 0)), ?_, ?_, ?_⟩
  · simp [TimeGrid, hlast, closed]
  · simp [TimeGrid, getLast?_collapse, loop_collapse, hlast, closed]
  · obtain ⟨c, r, rfl⟩ := List.exists_cons_of_ne_nil hne
    have h0 : (0 :: c :: r).getLast? = some ((c :: r).getLast hne) := by
      rw [List.getLast?_cons_cons, hlast]
    simp only [TimeGrid, h0, closed]
    rw [show loop ((c :: r).getLast hne / (steps : ℚ)) (0 :: c :: r) ([], 0) =
      loop ((c :: r).getLast hne / (steps : ℚ)) (c :: r) ([], 0) by
        rw [loop.eq_2]; simp]

theorem TimeGrid_duplicate_merge_witness :
    ∃ g, TimeGrid [1, 1, 2, 2, 2] 3 = some g ∧
      TimeGrid (collapse [1, 1, 2, 2, 2]) 3 = some g ∧
      TimeGrid (0 :: [1, 1, 2, 2, 2]) 3 = some g :=
  TimeGrid_duplicate_merge [1, 1, 2, 2, 2] 3 (by simp)

end Lattices

namespace Lattices

/-! ### The exact constructor as the rounded one without rounding -/

end Lattices

namespace Lattices

/-! ### The points of one segment -/

end Lattices

namespace Optimization

/-! ## The default gradient on affine cost functions -/

theorem dot_set :
    ∀ (a l : List ℚ) (k : ℕ) (v : ℚ), k < l.length → k < a.length →
      dot a (l.set k v) = dot a l + a.getD k 0 * (v - l.getD k 0) := by
  intro a
  induction a with
  | nil => intro l k v _ hk; simp at hk
  | cons p a ih =>
    intro l k v hl hk
    cases l with
    | nil => simp at hl
    | cons q l =>
      cases k with
      | zero =>
        simp only [dot, List.set_cons_zero, List.zipWith_cons_cons, List.sum_cons,
          List.getD_cons_zero]
        ring
      | succ j =>
        have hl2 : j < l.length := by simpa using hl
        have hk2 : j < a.length := by simpa using hk
        have := ih l j v hl2 hk2
        simp only [dot, List.set_cons_succ, List.zipWith_cons_cons, List.sum_cons,
          List.getD_cons_succ] at this ⊢
        rw [this]
        ring

/-- One iteration of the loop on an affine cost function: the working copy loses
`eps` in the coordinate `k`, and `grad_f[k]` becomes `a[k]`. -/
theorem gradientStep_affine (a : List ℚ) (c eps : ℚ) (heps : eps ≠ 0)
    (xx g : List ℚ) (k : ℕ) (hk : k < xx.length) (ha : k < a.length) :
    gradientStep (affineCost a c eps) (xx, g) k =
      (xx.set k (xx.getD k 0 - eps), g.set k (a.getD k 0)) := by
  have hget : (xx.set k (xx.getD k 0 + eps)).getD k 0 = xx.getD k 0 + eps := by
    simp [List.getD_eq_getElem?_getD, List.getElem?_set, hk]
  have hk1 : k < (xx.set k (xx.getD k 0 + eps)).length := by simpa using hk
  simp only [gradientStep, affineCost, hget, List.set_set]
  refine Prod.ext ?_ ?_
  · simp only
    congr 1
    ring
  · simp only
    congr 1
    rw [dot_set a xx k _ hk ha, dot_set a xx k _ hk ha]
    field_simp
    ring

/-- The state of the loop of `gradient` on an affine cost function after the indices
below `m`: the working copy has lost `eps` in these coordinates, and `grad_f` holds
the coefficients `a` there. -/
theorem gradient_fold_affine (a : List ℚ) (c eps : ℚ) (heps : eps ≠ 0)
    (grad_f x : List ℚ) (hlen : a.length = x.length) :
    ∀ m : ℕ, m ≤ x.length →
      ((List.range m).foldl (gradientStep (affineCost a c eps)) (x, grad_f)).1.length =
        x.length ∧
      (∀ i : ℕ,
        ((List.range m).foldl (gradientStep (affineCost a c eps)) (x, grad_f)).1[i]? =
          if i < m then x[i]?.map (fun t => t - eps) else x[i]?) ∧
      (∀ i : ℕ,
        ((List.range m).foldl (gradientStep (affineCost a c eps)) (x, grad_f)).2[i]? =
          if i < m then (if i < grad_f.length then a[i]? else none) else grad_f[i]?) := by
  intro m
  induction m with
  | zero => intro _; simp
  | succ m ih =>
    intro hm
    obtain ⟨h1, h2, h3⟩ := ih (by omega)
    have hmx : m < x.length := by omega
    rw [List.range_succ, List.foldl_append, List.foldl_cons, List.foldl_nil]
    generalize (List.range m).foldl (gradientStep (affineCost a c eps)) (x, grad_f) = st
      at h1 h2 h3 ⊢
    obtain ⟨xx, g⟩ := st
    simp only at h1 h2 h3
    have hglen : ∀ i, i < g.length ↔ i < grad_f.length := by
      intro i
      have := h3 i
      constructor
      · intro hi
        by_contra hcon
        rw [List.getElem?_eq_getElem hi] at this
        split_ifs at this
        rw [List.getElem?_eq_none (by omega)] at this
        cases this
      · intro hi
        by_contra hcon
        rw [List.getElem?_eq_none (by omega)] at this
        split_ifs at this with h4
        · rw [List.getElem?_eq_getElem (by omega)] at this
          cases this
        · rw [List.getElem?_eq_getElem hi] at this
          cases this
    rw [gradientStep_affine a c eps heps xx g m (by omega) (by omega)]
    have hxm : xx.getD m 0 = x[m] := by
      rw [List.getD_eq_getElem?_getD, h2 m, if_neg (lt_irrefl m),
        List.getElem?_eq_getElem hmx]
      rfl
    have ham : a.getD m 0 = a[m] := by
      rw [List.getD_eq_getElem?_getD, List.getElem?_eq_getElem (by omega)]
      rfl
    refine ⟨by simpa using h1, ?_, ?_⟩
    · intro i
      simp only [List.getElem?_set, h1, hmx, if_true, hxm]
      by_cases him : m = i
      · subst him
        simp [List.getElem?_eq_getElem hmx]
      · rw [if_neg him, h2 i]
        have : (i < m + 1) ↔ (i < m) := by omega
        simp only [this]
    · intro i
      simp only [List.getElem?_set, ham]
      by_cases him : m = i
      · subst him
        simp only [if_true, hglen m, Nat.lt_succ_self]
        split_ifs
        · rw [List.getElem?_eq_getElem (by omega)]
        · rfl
      · rw [if_neg him, h3 i]
        have : (i < m + 1) ↔ (i < m) := by omega
        simp only [this]

/-- C21: for every affine cost function `value(x) = a.x + c`, every point `x` and
every `eps ≠ 0`, the default `gradient` writes `a` into the coordinates of `grad_f`
that correspond to `x` (so `grad_f = a` when `grad_f` has the size of `x`), whatever
`x` is; when it returns, `x` is as it was, while the working copy holds `x - eps` in
every coordinate. -/
theorem gradient_affine (a : List ℚ) (c eps : ℚ) (grad_f x : List ℚ) (heps : eps ≠ 0)
    (hlen : a.length = x.length) (hg : x.length ≤ grad_f.length) :
    gradient (affineCost a c eps) grad_f x = some (a ++ grad_f.drop x.length) ∧
    (grad_f.length = x.length → gradient (affineCost a c eps) grad_f x = some a) ∧
    gradientArrays (affineCost a c eps) grad_f x =
      some (x, x.map (fun t => t - eps), a ++ grad_f.drop x.length) := by
  obtain ⟨_, h2, h3⟩ := gradient_fold_affine a c eps heps grad_f x hlen x.length le_rfl
  have hxx : ((List.range x.length).foldl (gradientStep (affineCost a c eps)) (x, grad_f)).1 =
      x.map (fun t => t - eps) := by
    apply List.ext_getElem?
    intro i
    rw [h2 i, List.getElem?_map]
    split_ifs with hi
    · rfl
    · rw [List.getElem?_eq_none (by omega)]
      rfl
  have hgr : ((List.range x.length).foldl (gradientStep (affineCost a c eps)) (x, grad_f)).2 =
      a ++ grad_f.drop x.length := by
    apply List.ext_getElem?
    intro i
    rw [h3 i, List.getElem?_append, hlen]
    split_ifs with hi hi2
    · rfl
    · omega
    · rw [List.getElem?_drop]
      congr 1
      omega
  have hgrad : gradient (affineCost a c eps) grad_f x = some (a ++ grad_f.drop x.length) := by
    rw [gradient, if_pos hg, hgr]
  refine ⟨hgrad, ?_, ?_⟩
  · intro heq
    rw [hgrad, List.drop_of_length_le (le_of_eq heq), List.append_nil]
  · rw [gradientArrays, if_pos hg, hxx, hgr]

theorem gradient_affine_witness :
    gradient (affineCost [2, 3] 1 defaultEpsilon) [0, 0] [5, 7] =
      some ([2, 3] ++ List.drop [(5 : ℚ), 7].length [(0 : ℚ), 0]) ∧
    (([0, 0] : List ℚ).length = [(5 : ℚ), 7].length →
      gradient (affineCost [2, 3] 1 defaultEpsilon) [0, 0] [5, 7] = some [2, 3]) ∧
    gradientArrays (affineCost [2, 3] 1 defaultEpsilon) [0, 0] [5, 7] =
      some ([5, 7], List.map (fun t => t - defaultEpsilon) [5, 7],
        [2, 3] ++ List.drop [(5 : ℚ), 7].length [(0 : ℚ), 0]) :=
  gradient_affine [2, 3] 1 defaultEpsilon [0, 0] [5, 7]
    (by norm_num [defaultEpsilon]) (by simp) (by simp)

end Optimization

namespace Lattices

/-! ## The constructor in `double` arithmetic -/

end Lattices

namespace Lattices

end Lattices

namespace Lattices

end Lattices

end QuantLib
